import Mathlib

/-!
Verification of the bounded-history live-data dashboard (`src/dashboard/app.py`).

The program keeps two fixed-capacity FIFO buffers (Python `deque(maxlen=N)`,
`N = 5` for the temperature feed and `N = 10` for the penguin-sample feed),
appends a fresh synthetic reading on every timer tick, and draws an
ordinary-least-squares trend line (scipy `stats.linregress`) over the current
buffer indexed by position.

Modelling conventions:
* Python floats are modelled by `ℚ`; a non-finite float (NaN/inf) is modelled
  by `none` in `Option ℚ`, and NaN-propagating float arithmetic by `fadd`/`fmul`.
* `deque(maxlen=N).append` is `dequeAppend N`: append on the right, dropping
  from the left whatever exceeds the capacity.
* The random draw `random.uniform(-18, -16)` is an explicit parameter `u`;
  `round(·, 1)` is `round1` (round to nearest tenth).
* The wall-clock timestamp string is an explicit parameter.
* `stats.linregress` is embedded from its biased-covariance formulation
  (`slope = ssxym / ssxm`, `intercept = ymean - slope * xmean`); when the
  x-variance `ssxm` is zero the float quotient is non-finite, hence `none`.
-/

namespace Dashboard

/-- `UPDATE_INTERVAL_SECS: int = 10` from the source. -/
def UPDATE_INTERVAL_SECS : Nat := 10

/-- `DEQUE_SIZE: int = 5` — capacity of the primary (temperature) buffer. -/
def DEQUE_SIZE : Nat := 5

/-- `DEQUE_SIZE_TWO: int = 10` — capacity of the secondary (penguin) buffer. -/
def DEQUE_SIZE_TWO : Nat := 10

/-- One temperature reading: `{"temp": temp, "timestamp": timestamp}`. -/
structure Reading where
  temp : ℚ
  timestamp : String
deriving DecidableEq, Repr

/-- One row of the Palmer-penguins reference dataset (columns as in the
source's dataset description; numeric columns may be missing, which
`pd.to_numeric(..., errors='coerce')` maps to NaN, modelled by `none`). -/
structure PenguinRow where
  species : String
  island : String
  bill_length_mm : Option ℚ
  bill_depth_mm : Option ℚ
  flipper_length_mm : Option ℚ
  body_mass_g : Option ℚ
  sex : String
deriving DecidableEq, Repr

/-- Python `deque(maxlen=maxlen).append x` on a buffer holding `l`:
the new element goes on the right, and anything beyond the capacity is
discarded from the left (oldest first). -/
def dequeAppend (maxlen : Nat) (l : List α) (x : α) : List α :=
  let l2 := l ++ [x]
  if maxlen < l2.length then l2.drop (l2.length - maxlen) else l2

/-- The last `maxlen` elements of a list (all of it when shorter). -/
def window (maxlen : Nat) (l : List α) : List α :=
  l.drop (l.length - maxlen)

theorem window_eq_self {maxlen : Nat} {l : List α} (h : l.length ≤ maxlen) :
    window maxlen l = l := by
  unfold window
  have : l.length - maxlen = 0 := by omega
  simp [this]

theorem dequeAppend_eq_window (maxlen : Nat) (l : List α) (x : α) :
    dequeAppend maxlen l x = window maxlen (l ++ [x]) := by
  simp only [dequeAppend, window]
  split
  · rfl
  · next h =>
    simp only [List.length_append, List.length_singleton] at h ⊢
    have h0 : l.length + 1 - maxlen = 0 := by omega
    simp [h0]

theorem length_window_le (maxlen : Nat) (l : List α) :
    (window maxlen l).length ≤ maxlen := by
  unfold window
  simp only [List.length_drop]
  omega

theorem window_append_window (maxlen : Nat) (a b : List α) :
    window maxlen (window maxlen a ++ b) = window maxlen (a ++ b) := by
  by_cases h : a.length ≤ maxlen
  · rw [window_eq_self h]
  · unfold window
    rw [List.drop_append_eq_append_drop, List.drop_append_eq_append_drop,
      List.drop_drop]
    simp only [List.length_append, List.length_drop]
    congr 1
    · congr 1
      omega
    · congr 1
      omega

/-- Folding `deque.append` over a sequence of new elements keeps exactly the
trailing `maxlen`-window of everything ever inserted. -/
theorem foldl_dequeAppend (maxlen : Nat) (rs : List α) :
    ∀ init : List α, init.length ≤ maxlen →
      List.foldl (dequeAppend maxlen) init rs = window maxlen (init ++ rs) := by
  induction rs with
  | nil =>
    intro init h
    simpa using (window_eq_self h).symm
  | cons x rs ih =>
    intro init h
    have hlen : (dequeAppend maxlen init x).length ≤ maxlen := by
      rw [dequeAppend_eq_window]
      exact length_window_le _ _
    calc List.foldl (dequeAppend maxlen) init (x :: rs)
        = List.foldl (dequeAppend maxlen) (dequeAppend maxlen init x) rs := rfl
      _ = window maxlen (dequeAppend maxlen init x ++ rs) := ih _ hlen
      _ = window maxlen (window maxlen (init ++ [x]) ++ rs) := by
          rw [dequeAppend_eq_window]
      _ = window maxlen ((init ++ [x]) ++ rs) := window_append_window _ _ _
      _ = window maxlen (init ++ x :: rs) := by
          rw [List.append_assoc]
          rfl

/-- `dequeAppend` written as "drop the overflow from the front, then append":
for positive capacity the new element always survives at the right end. -/
theorem dequeAppend_eq_drop_concat (maxlen : Nat) (hm : 1 ≤ maxlen)
    (l : List α) (x : α) :
    dequeAppend maxlen l x = l.drop (l.length + 1 - maxlen) ++ [x] := by
  rw [dequeAppend_eq_window]
  unfold window
  rw [List.drop_append_eq_append_drop]
  have h1 : (l ++ [x]).length - maxlen = l.length + 1 - maxlen := by
    simp
  have h2 : l.length + 1 - maxlen - l.length = 0 := by omega
  rw [h1, h2]
  simp

/-! ### Float arithmetic with non-finite values

`Option ℚ` models a Python float that may be non-finite: `some q` is the
finite value `q`, `none` is NaN/inf. `fadd`/`fmul` propagate non-finiteness
exactly as IEEE arithmetic propagates NaN for the operations the program
performs. -/

/-- NaN-propagating addition. -/
def fadd : Option ℚ → Option ℚ → Option ℚ
  | some a, some b => some (a + b)
  | _, _ => none

/-- NaN-propagating multiplication. -/
def fmul : Option ℚ → Option ℚ → Option ℚ
  | some a, some b => some (a * b)
  | _, _ => none

/-- `np.mean` of a list of finite floats. -/
def mean (l : List ℚ) : ℚ := l.sum / (l.length : ℚ)

/-- Biased sample variance of the x-values: the `ssxm` entry of
`np.cov(x, y, bias=1)` used by `scipy.stats.linregress`. -/
def ssxm (xs : List ℚ) : ℚ := mean (xs.map fun x => x * x) - mean xs * mean xs

/-- Biased sample covariance of x and y: the `ssxym` entry of
`np.cov(x, y, bias=1)` used by `scipy.stats.linregress`. -/
def ssxym (xs ys : List ℚ) : ℚ :=
  mean (List.zipWith (· * ·) xs ys) - mean xs * mean ys

/-- The slope computed by `scipy.stats.linregress`: `slope = ssxym / ssxm`.
When `ssxm = 0` (all x-values identical, e.g. a single point) the float
division yields a non-finite value (`0/0 = NaN`), modelled by `none`. -/
def linregressSlope (xs ys : List ℚ) : Option ℚ :=
  if ssxm xs = 0 then none else some (ssxym xs ys / ssxm xs)

/-- The intercept computed by `scipy.stats.linregress`:
`intercept = ymean - slope * xmean` (NaN-propagating through the slope). -/
def linregressIntercept (xs ys : List ℚ) : Option ℚ :=
  (linregressSlope xs ys).map fun s => mean ys - s * mean xs

/-- `list(range(len(df)))`, cast to floats: the independent variable of the
regression in `display_plot`. -/
def indexVals (n : Nat) : List ℚ := (List.range n).map fun i : ℕ => (i : ℚ)

/-- `df['best_fit_line'] = [slope * x + intercept for x in x_vals]`. -/
def best_fit_line (x_vals : List ℚ) (slope intercept : Option ℚ) :
    List (Option ℚ) :=
  x_vals.map fun x => fadd (fmul slope (some x)) intercept

/-- The trend-line portion of `display_plot`: given the buffer's temperature
column, return `none` when the frame is empty (`if not df.empty:` guard, no
figure produced), otherwise the regression-line values, one per row. -/
def display_plot (temps : List ℚ) : Option (List (Option ℚ)) :=
  if temps.isEmpty then none
  else
    let x_vals := indexVals temps.length
    some (best_fit_line x_vals (linregressSlope x_vals temps)
      (linregressIntercept x_vals temps))

/-! ### Spec-side ordinary least squares

Stated from the spec's words ("compute an ordinary least-squares line
(slope, intercept) via standard linear regression"), to be compared with the
source-embedded `linregressSlope`/`linregressIntercept`. -/

/-- Textbook OLS slope: `(n·Σxy − Σx·Σy) / (n·Σx² − (Σx)²)`. -/
def olsSlopeSpec (xs ys : List ℚ) : ℚ :=
  ((xs.length : ℚ) * (List.zipWith (· * ·) xs ys).sum - xs.sum * ys.sum) /
    ((xs.length : ℚ) * (xs.map fun x => x * x).sum - xs.sum * xs.sum)

/-- Textbook OLS intercept: `ȳ − slope·x̄`. -/
def olsInterceptSpec (xs ys : List ℚ) : ℚ :=
  mean ys - olsSlopeSpec xs ys * mean xs

/-! ### The tick operations -/

/-- Projection of a `Reading` to a row of the display `DataFrame`. -/
def toRow (r : Reading) : ℚ × String := (r.temp, r.timestamp)

/-- Python `round(x, 1)`: round to the nearest tenth. -/
def round1 (x : ℚ) : ℚ := (round (10 * x) : ℚ) / 10

/-- One tick of the primary feed, `reactive_calc_combined`:
`u` is the raw draw from `random.uniform(-18, -16)` and `ts` the formatted
wall-clock timestamp. The new entry `{"temp": round(u, 1), "timestamp": ts}`
is appended to the capacity-5 deque; the function returns the post-append
snapshot, its `DataFrame` view, and the just-inserted entry. -/
def reactive_calc_combined (buf : List Reading) (u : ℚ) (ts : String) :
    List Reading × List (ℚ × String) × Reading :=
  let new_dictionary_entry : Reading := { temp := round1 u, timestamp := ts }
  let deque_snapshot := dequeAppend DEQUE_SIZE buf new_dictionary_entry
  (deque_snapshot, deque_snapshot.map toRow, new_dictionary_entry)

/-- One tick of the secondary feed, `reactive_calc_generate`. The body runs
under `try/except`: `loaded` is the outcome of loading the reference dataset
and drawing the 5-row sample (`none` when loading or processing raised).
On failure the handler returns the empty triple `([], pd.DataFrame(), [])`;
on success the sample is appended to the capacity-10 deque and the snapshot,
its tabular view, and the sample are returned. -/
def reactive_calc_generate (buf : List (List PenguinRow))
    (loaded : Option (List PenguinRow)) :
    List (List PenguinRow) × List (List PenguinRow) × List PenguinRow :=
  match loaded with
  | some new_random_rows =>
    let deque_snapshot := dequeAppend DEQUE_SIZE_TWO buf new_random_rows
    (deque_snapshot, deque_snapshot, new_random_rows)
  | none => ([], [], [])

/-! ### Derived facts used by several theorems -/

theorem foldl_dequeAppend_nil (maxlen : Nat) (rs : List α) :
    List.foldl (dequeAppend maxlen) [] rs = window maxlen rs := by
  have h := foldl_dequeAppend maxlen rs [] (by simp)
  simpa using h

theorem length_foldl_dequeAppend_le (maxlen : Nat) (rs : List α) :
    (List.foldl (dequeAppend maxlen) [] rs).length ≤ maxlen := by
  rw [foldl_dequeAppend_nil]
  exact length_window_le _ _

theorem dequeAppend_full (maxlen : Nat) (l : List α) (x : α)
    (h : l.length = maxlen) (hm : 1 ≤ maxlen) :
    dequeAppend maxlen l x = l.tail ++ [x] := by
  rw [dequeAppend_eq_drop_concat maxlen hm]
  have h1 : l.length + 1 - maxlen = 1 := by omega
  rw [h1, List.drop_one]

theorem foldl_dequeAppend_overflow (maxlen : Nat) (rs : List α)
    (h : rs.length = maxlen + 1) :
    List.foldl (dequeAppend maxlen) [] rs = rs.drop 1 := by
  rw [foldl_dequeAppend_nil]
  unfold window
  congr 1
  omega

/-! ### The claims -/

/-- Claim C1: for every sequence of tick appends on either feed, the history
buffer never holds more than its fixed capacity (`DEQUE_SIZE = 5` for the
temperature feed, `DEQUE_SIZE_TWO = 10` for the penguin feed), and an append
to a full buffer evicts exactly the oldest entry. -/
theorem buffer_capacity_invariant :
    (∀ rs : List Reading,
        (List.foldl (dequeAppend DEQUE_SIZE) [] rs).length ≤ DEQUE_SIZE) ∧
    (∀ ss : List (List PenguinRow),
        (List.foldl (dequeAppend DEQUE_SIZE_TWO) [] ss).length ≤ DEQUE_SIZE_TWO) ∧
    (∀ (l : List Reading) (x : Reading), l.length = DEQUE_SIZE →
        dequeAppend DEQUE_SIZE l x = l.tail ++ [x]) ∧
    (∀ (l : List (List PenguinRow)) (x : List PenguinRow),
        l.length = DEQUE_SIZE_TWO →
        dequeAppend DEQUE_SIZE_TWO l x = l.tail ++ [x]) := by
  refine ⟨fun rs => length_foldl_dequeAppend_le _ rs,
    fun ss => length_foldl_dequeAppend_le _ ss,
    fun l x h => dequeAppend_full _ l x h (by norm_num [DEQUE_SIZE]),
    fun l x h => dequeAppend_full _ l x h (by norm_num [DEQUE_SIZE_TWO])⟩

/-- Witness for C1 at a concrete full primary buffer. -/
theorem buffer_capacity_invariant_witness :
    dequeAppend DEQUE_SIZE
        [(⟨-17, "t1"⟩ : Reading), ⟨-17, "t2"⟩, ⟨-17, "t3"⟩, ⟨-17, "t4"⟩,
          ⟨-17, "t5"⟩] ⟨-16, "t6"⟩ =
      [(⟨-17, "t1"⟩ : Reading), ⟨-17, "t2"⟩, ⟨-17, "t3"⟩, ⟨-17, "t4"⟩,
          ⟨-17, "t5"⟩].tail ++ [⟨-16, "t6"⟩] :=
  buffer_capacity_invariant.2.2.1 _ _ (by decide)

/-- Claim C2: starting from an empty buffer of capacity `N`, inserting `N+1`
readings leaves exactly the last `N` inserted readings in insertion order, so
the first surviving element is the 2nd inserted reading — FIFO eviction.
Holds for both feeds. -/
theorem fifo_roundtrip :
    (∀ rs : List Reading, rs.length = DEQUE_SIZE + 1 →
        List.foldl (dequeAppend DEQUE_SIZE) [] rs = rs.drop 1 ∧
        (List.foldl (dequeAppend DEQUE_SIZE) [] rs).head? = rs[1]?) ∧
    (∀ ss : List (List PenguinRow), ss.length = DEQUE_SIZE_TWO + 1 →
        List.foldl (dequeAppend DEQUE_SIZE_TWO) [] ss = ss.drop 1 ∧
        (List.foldl (dequeAppend DEQUE_SIZE_TWO) [] ss).head? = ss[1]?) := by
  constructor
  · intro rs h
    have hd := foldl_dequeAppend_overflow DEQUE_SIZE rs h
    exact ⟨hd, by rw [hd, List.head?_drop]⟩
  · intro ss h
    have hd := foldl_dequeAppend_overflow DEQUE_SIZE_TWO ss h
    exact ⟨hd, by rw [hd, List.head?_drop]⟩

/-- Witness for C2: six concrete readings through the capacity-5 feed. -/
theorem fifo_roundtrip_witness :
    List.foldl (dequeAppend DEQUE_SIZE) []
        [(⟨-17, "t1"⟩ : Reading), ⟨-16, "t2"⟩, ⟨-17, "t3"⟩, ⟨-16, "t4"⟩,
          ⟨-17, "t5"⟩, ⟨-16, "t6"⟩] =
      [(⟨-17, "t1"⟩ : Reading), ⟨-16, "t2"⟩, ⟨-17, "t3"⟩, ⟨-16, "t4"⟩,
          ⟨-17, "t5"⟩, ⟨-16, "t6"⟩].drop 1 ∧
    (List.foldl (dequeAppend DEQUE_SIZE) []
        [(⟨-17, "t1"⟩ : Reading), ⟨-16, "t2"⟩, ⟨-17, "t3"⟩, ⟨-16, "t4"⟩,
          ⟨-17, "t5"⟩, ⟨-16, "t6"⟩]).head? =
      [(⟨-17, "t1"⟩ : Reading), ⟨-16, "t2"⟩, ⟨-17, "t3"⟩, ⟨-16, "t4"⟩,
          ⟨-17, "t5"⟩, ⟨-16, "t6"⟩][1]? :=
  fifo_roundtrip.1 _ (by decide)

theorem fmul_none_left (b : Option ℚ) : fmul none b = none := rfl

theorem fadd_none_right (a : Option ℚ) : fadd a none = none := by
  cases a <;> rfl

theorem fmul_some (a b : ℚ) : fmul (some a) (some b) = some (a * b) := rfl

theorem fadd_some (a b : ℚ) : fadd (some a) (some b) = some (a + b) := rfl

theorem indexVals_one : indexVals 1 = [0] := by
  simp [indexVals, List.range_succ]

theorem ssxm_single (x : ℚ) : ssxm [x] = 0 := by
  simp [ssxm, mean]

theorem linregressSlope_zero_single (t : ℚ) :
    linregressSlope [0] [t] = none := by
  unfold linregressSlope
  rw [if_pos (ssxm_single 0)]

theorem linregressSlope_single (t : ℚ) :
    linregressSlope (indexVals 1) [t] = none := by
  rw [indexVals_one]
  exact linregressSlope_zero_single t

theorem linregressIntercept_zero_single (t : ℚ) :
    linregressIntercept [0] [t] = none := by
  simp [linregressIntercept, linregressSlope_zero_single t]

theorem linregressIntercept_single (t : ℚ) :
    linregressIntercept (indexVals 1) [t] = none := by
  rw [indexVals_one]
  exact linregressIntercept_zero_single t

/-- Claim C3 as stated is false on the code: for the single-element buffer
`[10.0]` the x-variance `ssxm` is `0`, so `linregress`'s slope is the
non-finite `0/0` (NaN) — not a well-defined `0`. -/
theorem single_point_slope_counterexample :
    linregressSlope (indexVals 1) [(10 : ℚ)] = none ∧
    linregressSlope (indexVals 1) [(10 : ℚ)] ≠ some 0 := by
  have h := linregressSlope_single (10 : ℚ)
  refine ⟨h, ?_⟩
  rw [h]
  intro hc
  exact Option.noConfusion hc

/-- Claim C3 (amended): for every single-element buffer the trend computation
is total — nothing is raised and a figure with exactly one predicted value is
produced — but the degenerate fit's slope is non-finite (NaN from `0/0`)
rather than `0`, so the single predicted value is non-finite as well and no
finite trend point is rendered. -/
theorem single_point_trend (t : ℚ) :
    display_plot [t] = some [none] ∧
    linregressSlope (indexVals 1) [t] = none := by
  refine ⟨?_, linregressSlope_single t⟩
  simp [display_plot, best_fit_line, indexVals_one,
    linregressSlope_single t, linregressIntercept_single t,
    linregressSlope_zero_single t, linregressIntercept_zero_single t,
    fmul_none_left, fadd_none_right]

/-- Claim C4: on an empty buffer the `if not df.empty` guard fires:
`display_plot` produces no figure and no trend line, and does not raise
(the function is total and returns `none`). -/
theorem empty_buffer_no_trend : display_plot [] = none := rfl

theorem indexVals_three : indexVals 3 = [0, 1, 2] := by
  rw [indexVals, (by decide : List.range 3 = [0, 1, 2])]
  norm_num

theorem slope_at_example : linregressSlope (indexVals 3) [10, 12, 14] = some 2 := by
  rw [indexVals_three]
  have hssxm : ssxm [0, 1, 2] = 2 / 3 := by norm_num [ssxm, mean]
  have hssxym : ssxym [0, 1, 2] [10, 12, 14] = 4 / 3 := by
    norm_num [ssxym, mean]
  unfold linregressSlope
  rw [hssxm, hssxym, if_neg (by norm_num)]
  norm_num

theorem intercept_at_example :
    linregressIntercept (indexVals 3) [10, 12, 14] = some 10 := by
  unfold linregressIntercept
  rw [slope_at_example, indexVals_three]
  norm_num [mean]

/-- Claim C5: on the buffer with values 10.0, 12.0, 14.0 at indices 0, 1, 2
the computed fit is exactly `slope = 2`, `intercept = 10`, and the trend line
`[10, 12, 14]` is monotonically increasing. -/
theorem exact_fit_example :
    display_plot [10, 12, 14] = some [some 10, some 12, some 14] ∧
    linregressSlope (indexVals 3) [10, 12, 14] = some 2 ∧
    linregressIntercept (indexVals 3) [10, 12, 14] = some 10 ∧
    List.Chain' (· < ·) [(10 : ℚ), 12, 14] := by
  refine ⟨?_, slope_at_example, intercept_at_example, ?_⟩
  · have hlen : ([10, 12, 14] : List ℚ).length = 3 := by simp
    simp only [display_plot, List.isEmpty_cons, hlen, if_false,
      Bool.false_eq_true, slope_at_example, intercept_at_example]
    simp [best_fit_line, indexVals_three, fmul, fadd]
    norm_num
  · simp [List.chain'_cons]
    norm_num

/-- Claim C7: every primary tick returns the post-append snapshot, the
tabular (`DataFrame`) view of that very snapshot, and the just-inserted
reading; the snapshot is exactly the post-eviction deque state and never
holds more than `DEQUE_SIZE` entries. -/
theorem tick_output_shape (buf : List Reading) (u : ℚ) (ts : String) :
    (reactive_calc_combined buf u ts).1 =
      dequeAppend DEQUE_SIZE buf { temp := round1 u, timestamp := ts } ∧
    (reactive_calc_combined buf u ts).2.1 =
      ((reactive_calc_combined buf u ts).1).map toRow ∧
    (reactive_calc_combined buf u ts).2.2 =
      { temp := round1 u, timestamp := ts } ∧
    ((reactive_calc_combined buf u ts).1).length ≤ DEQUE_SIZE := by
  refine ⟨rfl, rfl, rfl, ?_⟩
  show (dequeAppend DEQUE_SIZE buf _).length ≤ DEQUE_SIZE
  rw [dequeAppend_eq_window]
  exact length_window_le _ _

/-- Claim C9: when loading or processing the reference dataset fails on a
secondary-feed tick, the `except` handler maps the tick to the well-typed
empty triple (empty list, empty table, empty latest sample) instead of
propagating the error. -/
theorem dataset_error_to_empty (buf : List (List PenguinRow)) :
    reactive_calc_generate buf none = ([], [], []) := rfl

/-- Claim C10: after every primary tick the returned snapshot is non-empty
and its last element is the just-inserted reading returned as the third
component. -/
theorem latest_is_last (buf : List Reading) (u : ℚ) (ts : String) :
    (reactive_calc_combined buf u ts).1 ≠ [] ∧
    ((reactive_calc_combined buf u ts).1).getLast? =
      some ((reactive_calc_combined buf u ts).2.2) := by
  have h1 : (reactive_calc_combined buf u ts).1 =
      List.drop (buf.length + 1 - DEQUE_SIZE) buf ++
        [{ temp := round1 u, timestamp := ts }] :=
    dequeAppend_eq_drop_concat DEQUE_SIZE (by norm_num [DEQUE_SIZE])
      buf ({ temp := round1 u, timestamp := ts } : Reading)
  have h2 : (reactive_calc_combined buf u ts).2.2 =
      ({ temp := round1 u, timestamp := ts } : Reading) := rfl
  rw [h1, h2]
  constructor
  · simp
  · simp

/-- Claim C8: every reading produced by a primary tick has its value drawn
from the bounded synthetic range: for any uniform draw `u ∈ [-18, -16]` the
stored temperature `round(u, 1)` stays in `[-18, -16]` and is an integer
number of tenths (one decimal place). Generation is a total function of the
draw — it cannot fail. -/
theorem temp_value_bounded (buf : List Reading) (u : ℚ) (ts : String)
    (h1 : -18 ≤ u) (h2 : u ≤ -16) :
    -18 ≤ (reactive_calc_combined buf u ts).2.2.temp ∧
    (reactive_calc_combined buf u ts).2.2.temp ≤ -16 ∧
    ∃ k : ℤ, (reactive_calc_combined buf u ts).2.2.temp = (k : ℚ) / 10 := by
  have htemp : (reactive_calc_combined buf u ts).2.2.temp = round1 u := rfl
  rw [htemp]
  have hlo : (-180 : ℤ) ≤ round (10 * u) := by
    rw [round_eq]
    have hle : ((-180 : ℚ)) ≤ 10 * u + 1 / 2 := by linarith
    calc (-180 : ℤ) = ⌊(-180 : ℚ)⌋ := by norm_num
      _ ≤ ⌊10 * u + 1 / 2⌋ := Int.floor_le_floor hle
  have hhi : round (10 * u) ≤ -160 := by
    rw [round_eq]
    have hle : 10 * u + 1 / 2 ≤ (-319 : ℚ) / 2 := by linarith
    have hfl : ⌊(-319 : ℚ) / 2⌋ = -160 := by
      rw [Int.floor_eq_iff]
      constructor <;> norm_num
    calc ⌊10 * u + 1 / 2⌋ ≤ ⌊(-319 : ℚ) / 2⌋ := Int.floor_le_floor hle
      _ = -160 := hfl
  have hlo' : ((-180 : ℚ)) ≤ (round (10 * u) : ℚ) := by exact_mod_cast hlo
  have hhi' : ((round (10 * u) : ℚ)) ≤ -160 := by exact_mod_cast hhi
  refine ⟨?_, ?_, ⟨round (10 * u), rfl⟩⟩
  · unfold round1
    linarith
  · unfold round1
    linarith

/-- Witness for C8 at the concrete draw `u = -17`. -/
theorem temp_value_bounded_witness :
    -18 ≤ (reactive_calc_combined [] (-17) "t").2.2.temp ∧
    (reactive_calc_combined [] (-17) "t").2.2.temp ≤ -16 ∧
    ∃ k : ℤ, (reactive_calc_combined [] (-17) "t").2.2.temp = (k : ℚ) / 10 :=
  temp_value_bounded [] (-17) "t" (by norm_num) (by norm_num)

/-! ### Closed forms for the regression over positional indices -/

theorem length_indexVals (n : Nat) : (indexVals n).length = n := by
  unfold indexVals
  rw [List.length_map, List.length_range]

theorem indexVals_ne_nil {n : Nat} (h : 1 ≤ n) : indexVals n ≠ [] := by
  intro hc
  have hl := congrArg List.length hc
  rw [length_indexVals] at hl
  simp at hl
  omega

theorem indexVals_succ (n : Nat) :
    indexVals (n + 1) = indexVals n ++ [(n : ℚ)] := by
  simp [indexVals, List.range_succ]

theorem sum_indexVals (n : Nat) :
    2 * (indexVals n).sum = (n : ℚ) * ((n : ℚ) - 1) := by
  induction n with
  | zero => simp [indexVals]
  | succ n ih =>
    rw [indexVals_succ, List.sum_append, List.sum_singleton]
    push_cast
    push_cast at ih
    linear_combination ih

theorem sumsq_indexVals (n : Nat) :
    6 * ((indexVals n).map fun x => x * x).sum =
      (n : ℚ) * ((n : ℚ) - 1) * (2 * (n : ℚ) - 1) := by
  induction n with
  | zero => simp [indexVals]
  | succ n ih =>
    rw [indexVals_succ, List.map_append, List.sum_append]
    simp only [List.map_cons, List.map_nil, List.sum_cons, List.sum_nil]
    push_cast
    push_cast at ih
    linear_combination ih

theorem den_indexVals (n : Nat) :
    12 * ((n : ℚ) * ((indexVals n).map fun x => x * x).sum -
        (indexVals n).sum * (indexVals n).sum) =
      (n : ℚ) * (n : ℚ) * ((n : ℚ) - 1) * ((n : ℚ) + 1) := by
  linear_combination (2 * (n : ℚ)) * sumsq_indexVals n -
    3 * (2 * (indexVals n).sum + (n : ℚ) * ((n : ℚ) - 1)) * sum_indexVals n

theorem den_indexVals_pos {n : Nat} (h : 2 ≤ n) :
    0 < (n : ℚ) * ((indexVals n).map fun x => x * x).sum -
        (indexVals n).sum * (indexVals n).sum := by
  have hn : (2 : ℚ) ≤ (n : ℚ) := by exact_mod_cast h
  have h1 : (0 : ℚ) < (n : ℚ) := by linarith
  have h2 : (0 : ℚ) < (n : ℚ) - 1 := by linarith
  have h3 : (0 : ℚ) < (n : ℚ) + 1 := by linarith
  have hp : 0 < (n : ℚ) * (n : ℚ) * ((n : ℚ) - 1) * ((n : ℚ) + 1) :=
    mul_pos (mul_pos (mul_pos h1 h1) h2) h3
  linarith [den_indexVals n]

/-! ### `linregress` agrees with the textbook OLS formulas -/

theorem ssxm_eq_div {xs : List ℚ} (h : xs ≠ []) :
    ssxm xs =
      ((xs.length : ℚ) * (xs.map fun x => x * x).sum - xs.sum * xs.sum) /
        ((xs.length : ℚ) * (xs.length : ℚ)) := by
  have hn : (xs.length : ℚ) ≠ 0 := by
    have hp := List.length_pos.mpr h
    exact_mod_cast Nat.pos_iff_ne_zero.mp hp
  unfold ssxm mean
  rw [List.length_map]
  field_simp
  ring

theorem ssxym_eq_div {xs ys : List ℚ} (h : xs ≠ [])
    (hlen : ys.length = xs.length) :
    ssxym xs ys =
      ((xs.length : ℚ) * (List.zipWith (· * ·) xs ys).sum - xs.sum * ys.sum) /
        ((xs.length : ℚ) * (xs.length : ℚ)) := by
  have hn : (xs.length : ℚ) ≠ 0 := by
    have hp := List.length_pos.mpr h
    exact_mod_cast Nat.pos_iff_ne_zero.mp hp
  unfold ssxym mean
  rw [List.length_zipWith, hlen, min_self]
  field_simp
  ring

theorem linregressSlope_eq_ols {xs ys : List ℚ} (h : xs ≠ [])
    (hlen : ys.length = xs.length)
    (hD : (xs.length : ℚ) * (xs.map fun x => x * x).sum - xs.sum * xs.sum ≠ 0) :
    linregressSlope xs ys = some (olsSlopeSpec xs ys) := by
  have hn : (xs.length : ℚ) ≠ 0 := by
    have hp := List.length_pos.mpr h
    exact_mod_cast Nat.pos_iff_ne_zero.mp hp
  have hnn : (xs.length : ℚ) * (xs.length : ℚ) ≠ 0 := mul_ne_zero hn hn
  have hssxm : ssxm xs ≠ 0 := by
    rw [ssxm_eq_div h]
    exact div_ne_zero hD hnn
  unfold linregressSlope olsSlopeSpec
  rw [if_neg hssxm, ssxm_eq_div h, ssxym_eq_div h hlen]
  congr 1
  rw [div_div_div_cancel_right₀]
  exact hnn

theorem linregressIntercept_eq_ols {xs ys : List ℚ} (h : xs ≠ [])
    (hlen : ys.length = xs.length)
    (hD : (xs.length : ℚ) * (xs.map fun x => x * x).sum - xs.sum * xs.sum ≠ 0) :
    linregressIntercept xs ys = some (olsInterceptSpec xs ys) := by
  unfold linregressIntercept olsInterceptSpec
  rw [linregressSlope_eq_ols h hlen hD]
  rfl

/-- Claim C6: for every non-empty buffer of length `L` the trend computation
regresses the values on the positional indices `0..L-1`, producing exactly
one predicted value per index — the `i`-th prediction is
`slope * i + intercept` under NaN-propagating float arithmetic, aligned 1:1
with the buffer order — and whenever the regression is non-degenerate
(`L ≥ 2`, so the index variance is positive) the slope and intercept are
exactly the textbook ordinary-least-squares fit. -/
theorem trend_alignment (temps : List ℚ) (h : temps ≠ []) :
    ∃ trend : List (Option ℚ),
      display_plot temps = some trend ∧
      trend.length = temps.length ∧
      (∀ i : Nat, i < temps.length →
        trend[i]? = some (fadd
          (fmul (linregressSlope (indexVals temps.length) temps) (some (i : ℚ)))
          (linregressIntercept (indexVals temps.length) temps))) ∧
      (2 ≤ temps.length →
        linregressSlope (indexVals temps.length) temps =
          some (olsSlopeSpec (indexVals temps.length) temps) ∧
        linregressIntercept (indexVals temps.length) temps =
          some (olsInterceptSpec (indexVals temps.length) temps)) := by
  refine ⟨best_fit_line (indexVals temps.length)
      (linregressSlope (indexVals temps.length) temps)
      (linregressIntercept (indexVals temps.length) temps), ?_, ?_, ?_, ?_⟩
  · have hne : ¬(temps.isEmpty = true) := by
      cases temps with
      | nil => exact absurd rfl h
      | cons a l => simp
    unfold display_plot
    rw [if_neg hne]
  · simp [best_fit_line, length_indexVals]
  · intro i hi
    unfold best_fit_line
    rw [List.getElem?_map]
    have hx : (indexVals temps.length)[i]? = some ((i : ℚ)) := by
      unfold indexVals
      rw [List.getElem?_map, List.getElem?_range hi]
      rfl
    rw [hx]
    rfl
  · intro h2
    have hne : indexVals temps.length ≠ [] := indexVals_ne_nil (by omega)
    have hlen2 : temps.length = (indexVals temps.length).length :=
      (length_indexVals _).symm
    have hD : ((indexVals temps.length).length : ℚ) *
          ((indexVals temps.length).map fun x => x * x).sum -
          (indexVals temps.length).sum * (indexVals temps.length).sum ≠ 0 := by
      rw [length_indexVals]
      exact ne_of_gt (den_indexVals_pos h2)
    exact ⟨linregressSlope_eq_ols hne hlen2 hD,
      linregressIntercept_eq_ols hne hlen2 hD⟩

/-- Witness for C6 at the concrete buffer `[10, 12, 14]`. -/
theorem trend_alignment_witness :
    ∃ trend : List (Option ℚ),
      display_plot [10, 12, 14] = some trend ∧
      trend.length = ([10, 12, 14] : List ℚ).length ∧
      (∀ i : Nat, i < ([10, 12, 14] : List ℚ).length →
        trend[i]? = some (fadd
          (fmul (linregressSlope (indexVals ([10, 12, 14] : List ℚ).length)
            [10, 12, 14]) (some (i : ℚ)))
          (linregressIntercept (indexVals ([10, 12, 14] : List ℚ).length)
            [10, 12, 14]))) ∧
      (2 ≤ ([10, 12, 14] : List ℚ).length →
        linregressSlope (indexVals ([10, 12, 14] : List ℚ).length)
            [10, 12, 14] =
          some (olsSlopeSpec (indexVals ([10, 12, 14] : List ℚ).length)
            [10, 12, 14]) ∧
        linregressIntercept (indexVals ([10, 12, 14] : List ℚ).length)
            [10, 12, 14] =
          some (olsInterceptSpec (indexVals ([10, 12, 14] : List ℚ).length)
            [10, 12, 14])) :=
  trend_alignment [10, 12, 14] (by simp)

end Dashboard
